import Mathlib

/-!
Verification of the 2D addressing and compositing core of an addressable-LED
controller (source file wled00/FX_2Dfcn.cpp).  The C++ code is shallowly
embedded: machine 16-bit quantities are Nat with explicit `% 65536` where
overflow can matter, the LED strip is a function store, and the matrix
mapping table is a `List Nat` with the sentinel value 65535 (0xFFFF).
-/

namespace Wled2D

/-! ### Matrix Mapper (WS2812FX::setUpMatrix, FX_2Dfcn.cpp lines 37-153) -/

/-- One physical LED panel, as configured (struct Panel: width, height,
offsets, orientation flags).  Mirrors the fields used by setUpMatrix. -/
structure Panel where
  width : Nat
  height : Nat
  xOffset : Nat
  yOffset : Nat
  vertical : Bool
  rightStart : Bool
  bottomStart : Bool
  serpentine : Bool
deriving DecidableEq, Repr

/-- The Arduino constrain(v, -1, 1) applied to each loaded gap value
(FX_2Dfcn.cpp line 104). -/
def constrainGap (v : Int) : Int :=
  if v < -1 then -1 else if v > 1 then 1 else v

/-- The gap table as the scan sees it: every raw entry constrained to
[-1, 1] at load time (line 104); None when no usable gap file exists. -/
def constrainedGap (g : Option (Nat → Int)) : Option (Nat → Int) :=
  g.map fun f => fun i => constrainGap (f i)

/-- Sentinel table value 0xFFFF meaning: no LED at this logical position. -/
def sentinel : Nat := 65535

/-- Gate for writing the running pixel index into the table:
line 123, `!gapTable || (gapTable && gapTable[index] > 0)`.
The gap table entries have already been constrained to [-1, 1]. -/
def writeGate (g : Option (Nat → Int)) (idx : Nat) : Bool :=
  match g with
  | none => true
  | some f => decide (f idx > 0)

/-- Gate for advancing the running pixel counter:
line 124, `!gapTable || (gapTable && gapTable[index] >= 0)`. -/
def countGate (g : Option (Nat → Int)) (idx : Nat) : Bool :=
  match g with
  | none => true
  | some f => decide (f idx ≥ 0)

/-- One visited cell of the panel scan (body of the loop at lines 118-125).
State is the mapping table together with the uint16_t pixel counter `pix`;
the counter is 16-bit, hence the mod 65536 on the increment. -/
def scanStep (g : Option (Nat → Int)) (st : List Nat × Nat) (idx : Nat) :
    List Nat × Nat :=
  (if writeGate g idx then st.1.set idx st.2 else st.1,
   if countGate g idx then (st.2 + 1) % 65536 else st.2)

/-- Global cell index of local panel coordinate (i, j), lines 119-122:
orientation flags pick the start corner, serpentine flips odd lines, and
`vertical` swaps which local axis advances along the matrix row. -/
def panelCellIndex (maxWidth : Nat) (p : Panel) (j i : Nat) : Nat :=
  let h := if p.vertical then p.height else p.width
  let v := if p.vertical then p.width else p.height
  let y := if (if p.vertical then p.rightStart else p.bottomStart) then v - j - 1 else j
  let x0 := if (if p.vertical then p.bottomStart else p.rightStart) then h - i - 1 else i
  let x := if p.serpentine && j % 2 == 1 then h - x0 - 1 else x0
  (p.yOffset + (if p.vertical then x else y)) * maxWidth +
    p.xOffset + (if p.vertical then y else x)

/-- All cell indices visited while scanning one panel, in visit order
(outer loop j over `v`, inner loop i over `h`, lines 115-118). -/
def panelScanIndices (maxWidth : Nat) (p : Panel) : List Nat :=
  (List.range (if p.vertical then p.width else p.height)).flatMap fun j =>
    (List.range (if p.vertical then p.height else p.width)).map fun i =>
      panelCellIndex maxWidth p j i

/-- All cell indices visited by the whole panel scan, in panel list order
(line 113). -/
def scanIndices (maxWidth : Nat) (ps : List Panel) : List Nat :=
  ps.flatMap (panelScanIndices maxWidth)

/-- Initial mapping table (lines 75-76): matrix-area cells get the sentinel,
trailing cells (beyond the matrix, up to the device total) map to identity. -/
def initTable (matrixSize totalLen : Nat) : List Nat :=
  (List.range totalLen).map fun i => if i < matrixSize then sentinel else i

/-- The mapping table produced by a non-fallback run of setUpMatrix:
initialize, then fold the panel scan over every visited cell
(lines 74-127). -/
def buildTable (maxW maxH totalLen : Nat) (g : Option (Nat → Int))
    (ps : List Panel) : List Nat :=
  ((scanIndices maxW ps).foldl (scanStep g) (initTable (maxW * maxH) totalLen, 0)).1

/-- Bounding width: maximum of xOffset + width over panels, starting from 1
(lines 42-48). -/
def computeMaxWidth (ps : List Panel) : Nat :=
  ps.foldl (fun acc p => max acc (p.xOffset + p.width)) 1

/-- Bounding height: maximum of yOffset + height over panels, starting from 1
(lines 43-51). -/
def computeMaxHeight (ps : List Panel) : Nat :=
  ps.foldl (fun acc p => max acc (p.yOffset + p.height)) 1

/-- Total cell count of a panel list (each panel scanned once per list
entry); the panel scan performs exactly this many loop iterations. -/
def panelAreaSum (ps : List Panel) : Nat :=
  (ps.map fun p => p.width * p.height).sum

/-- Observable state touched by WS2812FX::setUpMatrix. `segmentsReset`
records whether resetSegments() was called during the run. -/
structure MatrixState where
  isMatrix : Bool
  maxWidth : Nat
  maxHeight : Nat
  panels : Nat
  panel : List Panel
  customMappingSize : Nat
  customMappingTable : Option (List Nat)
  segmentsReset : Bool

/-- WS2812FX::setUpMatrix (lines 37-153).  Parameters stand for the
externals it reads: MAX_LEDS, the strip length `_length`, getLengthTotal(),
whether `new uint16_t[...]` succeeds, and the gap file content (None when
the file is absent, unreadable, or shorter than the matrix; entries are
constrained to [-1,1] on load, line 104). -/
def setUpMatrix (maxLeds len totalLen : Nat) (allocOk : Bool)
    (gapRaw : Option (Nat → Int)) (st : MatrixState) : MatrixState :=
  if !st.isMatrix then st
  else
    let mW := computeMaxWidth st.panel
    let mH := computeMaxHeight st.panel
    if mW * mH > maxLeds || mW ≤ 1 || mH ≤ 1 then
      -- safety check failed (lines 55-64): early return, the mapping size
      -- and table are left untouched
      { st with isMatrix := false, maxWidth := len, maxHeight := 1,
                panels := 0, panel := [], segmentsReset := true }
    else
      let g := constrainedGap gapRaw
      if st.customMappingTable.isSome || allocOk then
        { st with maxWidth := mW, maxHeight := mH,
                  customMappingSize := totalLen,
                  customMappingTable := some (buildTable mW mH totalLen g st.panel) }
      else
        -- memory allocation error (lines 140-148); customMappingSize was
        -- zeroed at line 66 and never set again
        { st with isMatrix := false, maxWidth := len, maxHeight := 1,
                  panels := 0, panel := [], customMappingSize := 0,
                  customMappingTable := none, segmentsReset := true }

/-! ### Segment Transform Pipeline (FX_2Dfcn.cpp lines 160-409) -/

/-- Red channel of a packed 32-bit RGBW color.  Modelled from the spec:
the four color channels are packed W|R|G|B, 8 bits each (macro R in wled.h,
not part of the inspected source). -/
def chanR (c : Nat) : Nat := (c >>> 16) % 256

/-- Green channel of a packed 32-bit RGBW color (see chanR). -/
def chanG (c : Nat) : Nat := (c >>> 8) % 256

/-- Blue channel of a packed 32-bit RGBW color (see chanR). -/
def chanB (c : Nat) : Nat := c % 256

/-- White channel of a packed 32-bit RGBW color (see chanR). -/
def chanW (c : Nat) : Nat := (c >>> 24) % 256

/-- Packs four 8-bit channels into one 32-bit RGBW color (macro RGBW32). -/
def RGBW32 (r g b w : Nat) : Nat :=
  (w % 256) <<< 24 ||| (r % 256) <<< 16 ||| (g % 256) <<< 8 ||| (b % 256)

/-- Modelled from the spec: brightness scaling of one channel — scale by
brightness/255 with integer truncation (scale8 lives in FastLED, outside
the inspected source; the spec pins the semantics: "scale each of the four
color channels by brightness/255 (integer scale, not rounded up)"). -/
def scale8 (v bri : Nat) : Nat := v * bri / 255

/-- A segment as used by the 2D accessors: origin, physical size, transform
flags, grouping, activity and current brightness.  `width`/`height` stand
for the accessors width() and height() (physical extent), `active` for
isActive(), `bri` for currentBri(); those live in FX.h outside the
inspected source and are modelled as plain state. -/
structure Segment where
  start : Nat
  startY : Nat
  width : Nat
  height : Nat
  grouping : Nat
  reverse : Bool
  reverse_y : Bool
  transpose : Bool
  mirror : Bool
  mirror_y : Bool
  active : Bool
  bri : Nat
deriving DecidableEq, Repr

/-- Modelled from the spec: groupLength() — the number of physical pixels
per logical step, i.e. the segment's grouping factor (the accessor lives in
FX.h outside the inspected source; the spec describes grouping as "N
physical pixels per logical step, uniform in both axes"). -/
def Segment.groupLength (s : Segment) : Nat := s.grouping

/-- Modelled from the spec: virtualWidth() — the logical pixel count of the
segment after applying the grouping factor, always ≥ 1 for an active
segment (defined in FX.h outside the inspected source).  Transposing a
segment swaps which physical extent the logical width derives from, as
required by the transform order of setPixelColorXY (transpose happens after
the virtual-bounds check and before the physical-bounds check). -/
def Segment.virtualWidth (s : Segment) : Nat :=
  ((if s.transpose then s.height else s.width) + s.groupLength - 1) / s.groupLength

/-- Modelled from the spec: virtualHeight(), see virtualWidth. -/
def Segment.virtualHeight (s : Segment) : Nat :=
  ((if s.transpose then s.width else s.height) + s.groupLength - 1) / s.groupLength

/-- The underlying strip's 2D pixel store, as a function of physical
coordinates.  The strip accessor is an external collaborator; modelling it
as a function store makes it store and return colors faithfully, which is
exactly the hypothesis the read/write consistency claim grants it. -/
def Strip : Type := Nat → Nat → Nat

/-- One strip.setPixelColorXY write into the function store. -/
def stripSet (st : Strip) (a b col : Nat) : Strip :=
  fun a1 b1 => if a1 = a ∧ b1 = b then col else st a1 b1

/-- Render-side state a segment accessor touches: the strip plus the
optional transient render buffer (_activeBuffer), indexed linearly. -/
structure RenderState where
  strip : Strip
  buf : Option (Nat → Nat)

/-- The common geometric transform of both accessors (lines 189-194 and
402-406): axis reversal in virtual space, transpose, then expansion by the
grouping factor to physical coordinates. -/
def Segment.mapCoord (s : Segment) (x y : Nat) : Nat × Nat :=
  ((if s.transpose then (if s.reverse_y then s.virtualHeight - y - 1 else y)
    else (if s.reverse then s.virtualWidth - x - 1 else x)) * s.groupLength,
   (if s.transpose then (if s.reverse then s.virtualWidth - x - 1 else x)
    else (if s.reverse_y then s.virtualHeight - y - 1 else y)) * s.groupLength)

/-- Helper: a singleton write target guarded by a flag. -/
def optCell (b : Bool) (c : Nat × Nat) : List (Nat × Nat) :=
  if b then [c] else []

/-- Physical coordinates written for one grouped cell (xX, yY): the
canonical cell at the segment origin, then the horizontally mirrored, the
vertically mirrored, and the doubly mirrored cells (lines 202-214).  Note
the doubly mirrored write (line 213) carries no origin offset, exactly as
in the source. -/
def mirrorTargets (s : Segment) (xX yY : Nat) : List (Nat × Nat) :=
  let xm := s.width - xX - 1
  let ym := s.height - yY - 1
  let hMirrorCell : Nat × Nat :=
    if s.transpose then (s.start + xX, s.startY + ym)
    else (s.start + xm, s.startY + yY)
  let vMirrorCell : Nat × Nat :=
    if s.transpose then (s.start + xm, s.startY + yY)
    else (s.start + xX, s.startY + ym)
  [(s.start + xX, s.startY + yY)] ++ optCell s.mirror hMirrorCell ++
    optCell s.mirror_y vMirrorCell ++ optCell (s.mirror_y && s.mirror) (xm, ym)

/-- All strip coordinates written by one setPixelColorXY call once the
grouped origin (x, y) is reached: the grouping × grouping loop of lines
197-216, skipping cells beyond the physical bounds (line 200). -/
def groupWrites (s : Segment) (x y : Nat) : List (Nat × Nat) :=
  (List.range s.grouping).flatMap fun j =>
    (List.range s.grouping).flatMap fun g =>
      if x + g ≥ s.width ∨ y + j ≥ s.height then []
      else mirrorTargets s (x + g) (y + j)

/-- Applies a list of strip writes, all with the same color. -/
def applyWrites (st : Strip) (ws : List (Nat × Nat)) (col : Nat) : Strip :=
  ws.foldl (fun acc w => stripSet acc w.1 w.2 col) st

/-- Segment::setPixelColorXY(int, int, uint32_t) (lines 170-217): activity
and virtual-bounds guards, brightness scaling, transient-buffer
short-circuit, geometric transform, physical-bounds guard, then the grouped
and mirrored strip writes. -/
def Segment.setPixelColorXY (s : Segment) (rs : RenderState) (x y : Int)
    (col : Nat) : RenderState :=
  if !s.active then rs
  else if x ≥ (s.virtualWidth : Int) ∨ y ≥ (s.virtualHeight : Int) ∨
          x < 0 ∨ y < 0 then rs
  else
    let c := if s.bri < 255 then
        RGBW32 (scale8 (chanR col) s.bri) (scale8 (chanG col) s.bri)
          (scale8 (chanB col) s.bri) (scale8 (chanW col) s.bri)
      else col
    match rs.buf with
    | some b =>
        { rs with buf := some (fun i =>
            if i = y.toNat * s.virtualWidth + x.toNat then c else b i) }
    | none =>
        let p := s.mapCoord x.toNat y.toNat
        if p.1 ≥ s.width ∨ p.2 ≥ s.height then rs
        else { rs with strip := applyWrites rs.strip (groupWrites s p.1 p.2) c }

/-- Segment::getPixelColorXY (lines 395-409): same guards, transient-buffer
short-circuit and geometric transform as the write path, no brightness
scaling and no mirroring; reads the single canonical physical cell. -/
def Segment.getPixelColorXY (s : Segment) (rs : RenderState) (x y : Nat) : Nat :=
  if !s.active then 0
  else if x ≥ s.virtualWidth ∨ y ≥ s.virtualHeight then 0
  else
    match rs.buf with
    | some b => b (y * s.virtualWidth + x)
    | none =>
        let p := s.mapCoord x y
        if p.1 ≥ s.width ∨ p.2 ≥ s.height then 0
        else rs.strip (s.start + p.1) (s.startY + p.2)

/-- Segment::XY (lines 163-168): logical coordinates wrap modularly into
the virtual grid; an inactive segment yields 0.  The sum is computed in int
and returned as uint16_t, hence the mod 65536. -/
def Segment.XY (s : Segment) (x y : Nat) : Nat :=
  if s.active then ((x % s.virtualWidth) + (y % s.virtualHeight) * s.virtualWidth) % 65536
  else 0

/-! ### Transition Compositor (Segment::render2DTransition, lines 219-348) -/

/-- Truncation of a (possibly negative) int expression to uint16_t.  C
computes these expressions in 32-bit unsigned arithmetic and stores them in
a uint16_t; both reductions together equal reduction mod 65536. -/
def u16ofInt (n : Int) : Nat := (n % 65536).toNat

/-- The transition styles dispatched by render2DTransition (the
TRANSITION_STYLE_* constants, declared in FX.h outside the inspected
source; only the dispatch structure matters here). -/
inductive TransitionStyle
  | pushRight | pushLeft | pushUp | pushDown
  | swipeRight | swipeLeft | swipeUp | swipeDown
  | outsideIn | insideOut | fairyDust | fade
deriving DecidableEq, Repr

/-- Modelled from the spec: color_blend (declared in colors.cpp, outside
the inspected source) — linear 16-bit alpha blend per channel, returning
the first color at blend 0 and the second at blend 0xFFFF; the spec pins
exactly this for the fade style. -/
def color_blend (c1 c2 blend : Nat) : Nat :=
  RGBW32 ((chanR c1 * (65535 - blend) + chanR c2 * blend) / 65535)
    ((chanG c1 * (65535 - blend) + chanG c2 * blend) / 65535)
    ((chanB c1 * (65535 - blend) + chanB c2 * blend) / 65535)
    ((chanW c1 * (65535 - blend) + chanW c2 * blend) / 65535)

/-- The divisor of the outside-in and inside-out thresholds:
`uint16_t halfWidth = width >> 1` (lines 324 and 330). -/
def halfWidthOf (w : Nat) : Nat := w >>> 1

/-- Per-cell threshold of the swipe-right style, line 304. -/
def posSwipeRight (w x : Nat) : Nat := (x * 65535) / w

/-- Per-cell threshold of the swipe-left style, line 309. -/
def posSwipeLeft (w x : Nat) : Nat := 65535 - (x * 65535) / w

/-- Per-cell threshold of the swipe-up style, line 314. -/
def posSwipeUp (h y : Nat) : Nat := 65535 - (y * 65535) / h

/-- Per-cell threshold of the swipe-down style, line 319. -/
def posSwipeDown (h y : Nat) : Nat := (y * 65535) / h

/-- Per-cell threshold of the outside-in style, line 325: the x coordinate
folded around the midline, scaled by 0xFFFF over halfWidth, truncated to
uint16_t (for odd widths the scaled fold can exceed 0xFFFF). -/
def posOutsideIn (w x : Nat) : Nat :=
  (((if x < halfWidthOf w then x else w - x) * 65535) / halfWidthOf w) % 65536

/-- Per-cell threshold of the inside-out style, line 331: complement of the
folded scaled coordinate, computed in unsigned arithmetic and truncated to
uint16_t. -/
def posInsideOut (w x : Nat) : Nat :=
  u16ofInt (65535 - ((((if x < halfWidthOf w then x else w - x) * 65535) / halfWidthOf w : Nat) : Int))

/-- Per-cell threshold of the fairy-dust style, lines 336-338: hash the
cell's linear index, reduce mod the virtual length, scale to the 16-bit
progress domain. -/
def posFairyDust (hash : Nat → Nat) (len i : Nat) : Nat :=
  ((hash i % len) * 65535) / len

/-- The N evenly spaced 16-bit threshold values of an N-cell segment. -/
def evenSpaced (len k : Nat) : Nat := (k * 65535) / len

/-- Color written at cell (x, y) by the aligned-buffer part of
render2DTransition (the switch at lines 302-346).  `prog` is progress(),
`len` is virtualLength(), `hash` stands for hashInt (declared in util.cpp
outside the inspected source), b1 and b2 are buffer1 and buffer2 — the
loops at lines 240-245 and 234-239 label buffer1 the new (incoming) and
buffer2 the old (outgoing) content.  Push styles return before this switch;
the source default case falls through to fade. -/
def alignedTransitionColor (style : TransitionStyle) (prog W H len : Nat)
    (hash : Nat → Nat) (b1 b2 : Nat → Nat) (x y : Nat) : Nat :=
  let i := y * W + x
  match style with
  | .swipeRight => if prog ≤ ((x * 65535) / W) % 65536 then b2 i else b1 i
  | .swipeLeft =>
      if prog ≤ u16ofInt (65535 - (((x * 65535) / W : Nat) : Int)) then b2 i else b1 i
  | .swipeUp =>
      if prog ≤ u16ofInt (65535 - (((y * 65535) / H : Nat) : Int)) then b2 i else b1 i
  | .swipeDown => if prog ≤ ((y * 65535) / H) % 65536 then b2 i else b1 i
  | .outsideIn =>
      if prog ≤ (((if x < halfWidthOf W then x else W - x) * 65535) / halfWidthOf W) % 65536
      then b2 i else b1 i
  | .insideOut =>
      if prog ≤ u16ofInt (65535 - ((((if x < halfWidthOf W then x else W - x) * 65535) / halfWidthOf W : Nat) : Int))
      then b2 i else b1 i
  | .fairyDust => if prog ≤ ((hash i % len) * 65535) / len then b2 i else b1 i
  | _ => color_blend (b1 i) (b2 i) (65535 - prog)

/-- Cells visited by the aligned-transition double loop (line 299), in
visit order. -/
def visitedCells (W H : Nat) : List (Nat × Nat) :=
  (List.range W).flatMap fun x => (List.range H).map fun y => (x, y)

/-- All writes of the aligned-buffer part of render2DTransition: one per
visited cell. -/
def renderAligned (style : TransitionStyle) (prog W H len : Nat)
    (hash : Nat → Nat) (b1 b2 : Nat → Nat) : List (Nat × Nat × Nat) :=
  (visitedCells W H).map fun c =>
    (c.1, c.2, alignedTransitionColor style prog W H len hash b1 b2 c.1 c.2)

/-- Writes of the push-right style (lines 232-247): `pos` splits the frame;
the region right of the split samples buffer2 (labelled "old mode" in the
source) shifted by pos, the region left of it samples buffer1 ("new mode")
shifted by pos − width.  `W + x - pos` renders the C int expression
`x - pos + width`, which is nonnegative there since x < pos ≤ W. -/
def pushRightWrites (prog W H : Nat) (b1 b2 : Nat → Nat) :
    List (Nat × Nat × Nat) :=
  let pos := (prog * W) / 65535
  (((List.range (W - pos)).flatMap fun dx =>
      (List.range H).map fun y => (pos + dx, y, b2 (y * W + dx))) ++
   ((List.range pos).flatMap fun x =>
      (List.range H).map fun y => (x, y, b1 (y * W + (W + x - pos)))))

/-! ### Anti-aliased write (Segment::setPixelColorXY(float,...), lines 351-392) -/

/-- The cell writes issued by the anti-aliased branch (lines 375-388), as a
function of the rounded corner cells xL, xR, yT, yB, the four corners'
current colors, and the 8-bit blend weights.  The corners and weights come
from float rounding and squared sub-pixel distances (lines 362-369); they
are taken as inputs here, so every branch of the integer dispatch is kept
exactly as in the source.  In the 4-cell branch q-- are the
`sqrtf(dX*dY)*255` weights; in the 2-cell branches wL..wB are the
`dX*255` (squared distance) weights. -/
def aaWrites (xL xR yT yB : Nat) (qLT qRT qLB qRB wL wR wT wB : Nat)
    (col cLT cRT cLB cRB : Nat) : List (Nat × Nat × Nat) :=
  if xL ≠ xR ∧ yT ≠ yB then
    [(xL, yT, color_blend col cLT qLT), (xR, yT, color_blend col cRT qRT),
     (xL, yB, color_blend col cLB qLB), (xR, yB, color_blend col cRB qRB)]
  else if xR ≠ xL ∧ yT = yB then
    [(xR, yT, color_blend col cLT wL), (xR, yT, color_blend col cRT wR)]
  else if xR = xL ∧ yT ≠ yB then
    [(xR, yT, color_blend col cLT wT), (xL, yB, color_blend col cLB wB)]
  else
    [(xL, yT, col)]

/-! ### Theorems: claim C3 -/

/-- C3: at each visited cell of the panel scan, with no gap table the cell
receives the next sequential physical pixel index and the counter advances;
with a gap table, an active (1) cell receives the index and advances the
counter, an inactive (0) cell keeps its sentinel entry but still consumes
one electrical address, and a missing (-1) cell changes neither the table
entry nor the counter. -/
theorem scanStep_gap_semantics (f : Nat → Int) (idx : Nat)
    (tbl : List Nat) (pix : Nat) :
    (scanStep none (tbl, pix) idx = (tbl.set idx pix, (pix + 1) % 65536)) ∧
    (f idx = 1 → scanStep (some f) (tbl, pix) idx = (tbl.set idx pix, (pix + 1) % 65536)) ∧
    (f idx = 0 → scanStep (some f) (tbl, pix) idx = (tbl, (pix + 1) % 65536)) ∧
    (f idx = -1 → scanStep (some f) (tbl, pix) idx = (tbl, pix)) := by
  refine ⟨rfl, ?_, ?_, ?_⟩ <;> intro h <;>
    simp [scanStep, writeGate, countGate, h]

/-- Witness for C3 at a concrete input. -/
theorem scanStep_gap_semantics_witness :
    ((fun k : Nat => if k = 0 then (1 : Int) else -1) 0 = 1) ∧
    scanStep (some (fun k : Nat => if k = 0 then (1 : Int) else -1))
      ([7, 7], 5) 0 = ([5, 7], 6) := by
  refine ⟨by decide, ?_⟩
  have h := (scanStep_gap_semantics (fun k : Nat => if k = 0 then (1 : Int) else -1)
    0 [7, 7] 5).2.1 (by decide)
  simpa using h

/-! ### Theorems: claims C4, C6, C9, C10 -/

/-- At progress 0 the push-right style shows buffer2 on every cell,
unshifted, and samples buffer1 nowhere: buffer2 holds the outgoing and
buffer1 the incoming frame, matching the source's own "old mode" and
"new mode" labels. -/
theorem pushRightWrites_zero (W H : Nat) (b1 b2 : Nat → Nat) :
    pushRightWrites 0 W H b1 b2 =
      (List.range W).flatMap fun x =>
        (List.range H).map fun y => (x, y, b2 (y * W + x)) := by
  simp [pushRightWrites]

/-- Witness for pushRightWrites_zero at a concrete size. -/
theorem pushRightWrites_zero_witness :
    pushRightWrites 0 2 1 (fun k => k) (fun k => k + 10) =
      [(0, 0, 10), (1, 0, 11)] := by
  have h := pushRightWrites_zero 2 1 (fun k => k) (fun k => k + 10)
  simpa using h

/-- Helper: a threshold numerator strictly below the scale stays below
0xFFFF after division. -/
theorem scaled_pos_lt (w x : Nat) (hx : x < w) : (x * 65535) / w < 65535 := by
  have h1 : x * 65535 < w * 65535 := by nlinarith
  exact Nat.div_lt_of_lt_mul h1

/-- Helper: uint16 truncation of 0xFFFF minus a small quotient is plain
subtraction. -/
theorem u16ofInt_sub_small (q : Nat) (hq : q ≤ 65535) :
    u16ofInt (65535 - (q : Int)) = 65535 - q := by
  unfold u16ofInt
  omega

/-- C4 (amended): in the aligned part of render2DTransition, for the four
swipe styles and outside-in and inside-out, a visited cell whose threshold
pos satisfies progress ≤ pos renders the outgoing buffer2 color at that
cell, a cell with progress > pos renders the incoming buffer1 color, and
neither buffer is shifted (both are sampled at the cell's own linear
index).  The original claim has the two buffers exchanged. -/
theorem alignedTransition_threshold (prog W H len : Nat) (hash : Nat → Nat)
    (b1 b2 : Nat → Nat) (x y : Nat) (hx : x < W) (hy : y < H) :
    (alignedTransitionColor .swipeRight prog W H len hash b1 b2 x y
      = if prog ≤ posSwipeRight W x then b2 (y * W + x) else b1 (y * W + x)) ∧
    (alignedTransitionColor .swipeLeft prog W H len hash b1 b2 x y
      = if prog ≤ posSwipeLeft W x then b2 (y * W + x) else b1 (y * W + x)) ∧
    (alignedTransitionColor .swipeUp prog W H len hash b1 b2 x y
      = if prog ≤ posSwipeUp H y then b2 (y * W + x) else b1 (y * W + x)) ∧
    (alignedTransitionColor .swipeDown prog W H len hash b1 b2 x y
      = if prog ≤ posSwipeDown H y then b2 (y * W + x) else b1 (y * W + x)) ∧
    (alignedTransitionColor .outsideIn prog W H len hash b1 b2 x y
      = if prog ≤ posOutsideIn W x then b2 (y * W + x) else b1 (y * W + x)) ∧
    (alignedTransitionColor .insideOut prog W H len hash b1 b2 x y
      = if prog ≤ posInsideOut W x then b2 (y * W + x) else b1 (y * W + x)) := by
  have hxw := scaled_pos_lt W x hx
  have hyh := scaled_pos_lt H y hy
  have ex : x * 65535 / W % 65536 = x * 65535 / W := Nat.mod_eq_of_lt (by omega)
  have ey : y * 65535 / H % 65536 = y * 65535 / H := Nat.mod_eq_of_lt (by omega)
  have exl := u16ofInt_sub_small (x * 65535 / W) (Nat.le_of_lt hxw)
  have eyl := u16ofInt_sub_small (y * 65535 / H) (Nat.le_of_lt hyh)
  refine ⟨?_, ?_, ?_, ?_, ?_, ?_⟩
  · simp only [alignedTransitionColor, posSwipeRight]
    rw [ex]
  · simp only [alignedTransitionColor, posSwipeLeft]
    rw [exl]
  · simp only [alignedTransitionColor, posSwipeUp]
    rw [eyl]
  · simp only [alignedTransitionColor, posSwipeDown]
    rw [ey]
  · rfl
  · rfl

/-- Witness for C4's amended theorem at a concrete input. -/
theorem alignedTransition_threshold_witness :
    alignedTransitionColor .swipeRight 0 2 1 2 (fun k => k)
      (fun _ => 1) (fun _ => 2) 0 0 = 2 := by
  have h := (alignedTransition_threshold 0 2 1 2 (fun k => k)
    (fun _ => 1) (fun _ => 2) 0 0 (by decide) (by decide)).1
  simpa [posSwipeRight] using h

/-- C4 counterexample: for swipe-right at progress 0 every per-cell
threshold satisfies progress ≤ pos, and the cell renders buffer2 — the
outgoing buffer (shown at transition start) — not the incoming buffer1 the
claim names: with incoming ≡ 1 and outgoing ≡ 2 the rendered color is 2. -/
theorem alignedTransition_counterexample :
    alignedTransitionColor .swipeRight 0 2 1 2 (fun k => k)
      (fun _ => 1) (fun _ => 2) 0 0 = 2 ∧ (2 : Nat) ≠ 1 := by
  exact ⟨rfl, by decide⟩

/-- C6: evaluating the anti-aliased write dispatch at its three degenerate
corner configurations.  First conjunct, the bug: when the point is
fractional only in x (xL = 0 ≠ xR = 1, yT = yB), both blended writes target
the right cell (1,0) and the left cell (0,0) is never written — the source
comments call the first write "blend L pixel" yet it writes xR.  Second:
the exact match case writes the single cell with the color unmodified.
Third: the y-only-fractional case does blend into two distinct cells. -/
theorem aaWrites_x_fractional_bug :
    ((aaWrites 0 1 0 0 0 0 0 0 100 200 0 0 10 20 30 0 0).map fun t =>
        (t.1, t.2.1)) = [(1, 0), (1, 0)] ∧
    aaWrites 0 0 0 0 0 0 0 0 0 0 0 0 10 20 30 0 0 = [(0, 0, 10)] ∧
    ((aaWrites 0 0 0 1 0 0 0 0 0 0 100 200 10 20 30 40 0).map fun t =>
        (t.1, t.2.1)) = [(0, 0), (0, 1)] := by
  refine ⟨?_, ?_, ?_⟩ <;> rfl

/-- C9 counterexample: for virtual width 1 the outside-in/inside-out
divisor `width >> 1` is 0 while the aligned loop does visit a cell (any
height ≥ 1), so the threshold division is reached with a zero divisor. -/
theorem halfWidth_zero_counterexample :
    halfWidthOf 1 = 0 ∧ (0, 0) ∈ visitedCells 1 1 := by
  constructor
  · rfl
  · simp [visitedCells]

/-- C9 (amended): for every virtual width W ≥ 2 (and any height, progress
and cell actually visited by the aligned loop), the divisor
halfWidth = W >> 1 of the outside-in and inside-out thresholds is nonzero;
for W = 1 it is zero, so the original claim fails there. -/
theorem halfWidth_nonzero (W H : Nat) (c : Nat × Nat) (hW : 2 ≤ W)
    (_hc : c ∈ visitedCells W H) : halfWidthOf W ≠ 0 := by
  have h : halfWidthOf W = W / 2 := by
    simp [halfWidthOf, Nat.shiftRight_eq_div_pow]
  omega

/-- Witness for C9's amended theorem. -/
theorem halfWidth_nonzero_witness :
    2 ≤ 2 ∧ ((0, 0) ∈ visitedCells 2 1) ∧ halfWidthOf 2 ≠ 0 := by
  refine ⟨by decide, by simp [visitedCells], ?_⟩
  exact halfWidth_nonzero 2 1 (0, 0) (by decide) (by simp [visitedCells])

/-- C10: for an active segment, Segment::XY wraps any coordinates
modularly, returning (x mod virtualWidth) + (y mod virtualHeight) ·
virtualWidth, which is strictly below virtualWidth · virtualHeight (so the
uint16 return cannot truncate while the virtual area fits 16-bit
addressing); an inactive segment returns 0. -/
theorem XY_wraps (s : Segment) (x y : Nat)
    (hW : 1 ≤ s.virtualWidth) (hH : 1 ≤ s.virtualHeight)
    (hFit : s.virtualWidth * s.virtualHeight ≤ 65536) :
    (s.active = true →
      s.XY x y = (x % s.virtualWidth) + (y % s.virtualHeight) * s.virtualWidth ∧
      s.XY x y < s.virtualWidth * s.virtualHeight) ∧
    (s.active = false → s.XY x y = 0) := by
  constructor
  · intro hA
    have hxm : x % s.virtualWidth < s.virtualWidth := Nat.mod_lt _ (by omega)
    have hym : y % s.virtualHeight < s.virtualHeight := Nat.mod_lt _ (by omega)
    have hlt : (x % s.virtualWidth) + (y % s.virtualHeight) * s.virtualWidth <
        s.virtualWidth * s.virtualHeight := by
      have := Nat.mul_le_mul_right s.virtualWidth (Nat.succ_le_of_lt hym)
      calc (x % s.virtualWidth) + (y % s.virtualHeight) * s.virtualWidth
          < s.virtualWidth + (y % s.virtualHeight) * s.virtualWidth := by omega
        _ = (y % s.virtualHeight + 1) * s.virtualWidth := by ring
        _ ≤ s.virtualHeight * s.virtualWidth := by
            exact Nat.mul_le_mul_right _ (Nat.succ_le_of_lt hym)
        _ = s.virtualWidth * s.virtualHeight := Nat.mul_comm _ _
    constructor
    · simp [Segment.XY, hA, Nat.mod_eq_of_lt (Nat.lt_of_lt_of_le hlt hFit)]
    · simpa [Segment.XY, hA, Nat.mod_eq_of_lt (Nat.lt_of_lt_of_le hlt hFit)] using hlt
  · intro hA
    simp [Segment.XY, hA]

/-- Witness for C10 at a concrete active segment and out-of-range input. -/
theorem XY_wraps_witness :
    (⟨0, 0, 4, 2, 1, false, false, false, false, false, true, 255⟩ : Segment).XY 5 3 = 5 := by
  have h := (XY_wraps
    (⟨0, 0, 4, 2, 1, false, false, false, false, false, true, 255⟩ : Segment)
    5 3 (by decide) (by decide) (by decide)).1 rfl
  simpa [Segment.virtualWidth, Segment.virtualHeight, Segment.groupLength] using h.1

/-! ### Theorems: claims C5, C7 -/

/-- C5 (amended): every strip write issued by the grouped write loop of
setPixelColorXY, except the doubly mirrored one, targets physical
coordinates offset by the segment origin — of the form
(start + px, startY + py) with px < width and py < height; the doubly
mirrored write (issued when mirror and mirror_y are both set) instead
targets (width − xX − 1, height − yY − 1) with no origin offset, exactly
as line 213 computes it.  The original claim, which requires the origin
offset of every write including the doubly mirrored one, fails. -/
theorem groupWrites_targets (s : Segment) (x y : Nat) (w : Nat × Nat)
    (hw : w ∈ groupWrites s x y) :
    (∃ px py, px < s.width ∧ py < s.height ∧ w = (s.start + px, s.startY + py)) ∨
    (s.mirror = true ∧ s.mirror_y = true ∧
      ∃ xX yY, xX < s.width ∧ yY < s.height ∧
        w = (s.width - xX - 1, s.height - yY - 1)) := by
  unfold groupWrites at hw
  simp only [List.mem_flatMap, List.mem_range] at hw
  obtain ⟨j, hj, g, hg, hw⟩ := hw
  by_cases hb : x + g ≥ s.width ∨ y + j ≥ s.height
  · simp [hb] at hw
  · simp only [hb, if_false] at hw
    push_neg at hb
    obtain ⟨hbx, hby⟩ := hb
    unfold mirrorTargets at hw
    simp only [List.mem_append, List.mem_singleton] at hw
    rcases hw with ((hc | hm) | hmy) | hboth
    · exact Or.inl ⟨x + g, y + j, hbx, hby, hc⟩
    · unfold optCell at hm
      by_cases hmf : s.mirror
      · simp only [hmf, if_true, List.mem_singleton] at hm
        by_cases htr : s.transpose
        · simp only [htr, if_true] at hm
          exact Or.inl ⟨x + g, s.height - (y + j) - 1, hbx, by omega, hm⟩
        · simp only [htr, if_false] at hm
          exact Or.inl ⟨s.width - (x + g) - 1, y + j, by omega, hby, hm⟩
      · simp [hmf] at hm
    · unfold optCell at hmy
      by_cases hmf : s.mirror_y
      · simp only [hmf, if_true, List.mem_singleton] at hmy
        by_cases htr : s.transpose
        · simp only [htr, if_true] at hmy
          exact Or.inl ⟨s.width - (x + g) - 1, y + j, by omega, hby, hmy⟩
        · simp only [htr, if_false] at hmy
          exact Or.inl ⟨x + g, s.height - (y + j) - 1, hbx, by omega, hmy⟩
      · simp [hmf] at hmy
    · unfold optCell at hboth
      by_cases hmf : s.mirror_y && s.mirror
      · simp only [hmf, if_true, List.mem_singleton] at hboth
        simp only [Bool.and_eq_true] at hmf
        exact Or.inr ⟨hmf.2, hmf.1, x + g, y + j, hbx, hby, hboth⟩
      · simp [hmf] at hboth

/-- Witness for C5's amended theorem at a concrete segment and write. -/
theorem groupWrites_targets_witness :
    (∃ px py, px < (⟨2, 0, 2, 2, 1, false, false, false, true, true, true, 255⟩ : Segment).width ∧
       py < (⟨2, 0, 2, 2, 1, false, false, false, true, true, true, 255⟩ : Segment).height ∧
       ((2, 0) : Nat × Nat) =
         ((⟨2, 0, 2, 2, 1, false, false, false, true, true, true, 255⟩ : Segment).start + px,
          (⟨2, 0, 2, 2, 1, false, false, false, true, true, true, 255⟩ : Segment).startY + py)) ∨
    ((⟨2, 0, 2, 2, 1, false, false, false, true, true, true, 255⟩ : Segment).mirror = true ∧
     (⟨2, 0, 2, 2, 1, false, false, false, true, true, true, 255⟩ : Segment).mirror_y = true ∧
     ∃ xX yY, xX < (⟨2, 0, 2, 2, 1, false, false, false, true, true, true, 255⟩ : Segment).width ∧
       yY < (⟨2, 0, 2, 2, 1, false, false, false, true, true, true, 255⟩ : Segment).height ∧
       ((2, 0) : Nat × Nat) =
         ((⟨2, 0, 2, 2, 1, false, false, false, true, true, true, 255⟩ : Segment).width - xX - 1,
          (⟨2, 0, 2, 2, 1, false, false, false, true, true, true, 255⟩ : Segment).height - yY - 1)) :=
  groupWrites_targets ⟨2, 0, 2, 2, 1, false, false, false, true, true, true, 255⟩
    0 0 (2, 0) (by decide)

/-- C5 counterexample: a both-mirrors segment whose origin is not (0,0).
The doubly mirrored write of a setPixelColorXY(0,0) call lands at (1,1),
whose x-coordinate is below the segment origin start = 2, so it is not of
the form (start + px, startY + py) with px ≥ 0; the call really performs
that strip write. -/
theorem doubleMirror_offset_counterexample :
    (((1, 1) : Nat × Nat) ∈
      groupWrites (⟨2, 0, 2, 2, 1, false, false, false, true, true, true, 255⟩ : Segment) 0 0) ∧
    (1 : Nat) < (⟨2, 0, 2, 2, 1, false, false, false, true, true, true, 255⟩ : Segment).start ∧
    (Segment.setPixelColorXY
      (⟨2, 0, 2, 2, 1, false, false, false, true, true, true, 255⟩ : Segment)
      ⟨fun _ _ => 0, none⟩ 0 0 7).strip 1 1 = 7 := by
  refine ⟨by decide, by decide, ?_⟩
  rfl

/-- Helper: the even-spacing map k ↦ (k · 0xFFFF) / len is strictly
monotone (hence injective) while len ≤ 0xFFFF. -/
theorem evenSpaced_strictMono (len a b : Nat) (h1 : 1 ≤ len)
    (h2 : len ≤ 65535) (hab : a < b) :
    evenSpaced len a < evenSpaced len b := by
  unfold evenSpaced
  have key : a * 65535 + len ≤ b * 65535 := by nlinarith
  have h3 : (a * 65535 + len) / len ≤ b * 65535 / len := Nat.div_le_div_right key
  have e : (a * 65535 + len) / len = a * 65535 / len + 1 :=
    Nat.add_div_right _ (by omega)
  omega

/-- C7: for the fairy-dust style on an N-cell segment (1 ≤ N ≤ 0xFFFF),
whenever hashInt-then-mod permutes the cell indices — which is how the spec
describes hashInt, whose definition lives in util.cpp outside the inspected
source — the per-cell thresholds pos i = ((hashInt i mod N) · 0xFFFF) / N
are pairwise distinct across the N cells and their set is exactly the set
of N evenly spaced 16-bit values, i.e. a permutation of them. -/
theorem fairyDust_permutation (hash : Nat → Nat) (len : Nat)
    (h1 : 1 ≤ len) (h2 : len ≤ 65535)
    (hinj : ∀ i, i < len → ∀ j, j < len → hash i % len = hash j % len → i = j) :
    (∀ i, i < len → ∀ j, j < len →
      posFairyDust hash len i = posFairyDust hash len j → i = j) ∧
    Finset.image (posFairyDust hash len) (Finset.range len) =
      Finset.image (evenSpaced len) (Finset.range len) := by
  have hmodlt : ∀ i, hash i % len < len := fun i => Nat.mod_lt _ (by omega)
  have hes_inj : ∀ a b, a < len → b < len →
      evenSpaced len a = evenSpaced len b → a = b := by
    intro a b _ _ hab
    by_contra hne
    rcases Nat.lt_or_ge a b with h | h
    · exact absurd hab (Nat.ne_of_lt (evenSpaced_strictMono len a b h1 h2 h))
    · have hba : b < a := by omega
      exact absurd hab.symm (Nat.ne_of_lt (evenSpaced_strictMono len b a h1 h2 hba))
  constructor
  · intro i hi j hj hpos
    exact hinj i hi j hj (hes_inj _ _ (hmodlt i) (hmodlt j) hpos)
  · have himg : Finset.image (fun i => hash i % len) (Finset.range len) =
        Finset.range len := by
      apply Finset.eq_of_subset_of_card_le
      · intro v hv
        simp only [Finset.mem_image, Finset.mem_range] at hv
        obtain ⟨i, _, rfl⟩ := hv
        simpa using hmodlt i
      · have hio : Set.InjOn (fun i => hash i % len) (Finset.range len) := by
          intro i hi j hj hij
          simp only [Finset.coe_range, Set.mem_Iio] at hi hj
          exact hinj i hi j hj hij
        rw [Finset.card_image_of_injOn hio]
    calc Finset.image (posFairyDust hash len) (Finset.range len)
        = Finset.image (evenSpaced len)
            (Finset.image (fun i => hash i % len) (Finset.range len)) := by
          rw [Finset.image_image]
          rfl
      _ = Finset.image (evenSpaced len) (Finset.range len) := by rw [himg]

/-- Witness for C7 with the identity hash on a 3-cell segment. -/
theorem fairyDust_permutation_witness :
    (∀ i, i < 3 → ∀ j, j < 3 →
      posFairyDust (fun k => k) 3 i = posFairyDust (fun k => k) 3 j → i = j) ∧
    Finset.image (posFairyDust (fun k => k) 3) (Finset.range 3) =
      Finset.image (evenSpaced 3) (Finset.range 3) :=
  fairyDust_permutation (fun k => k) 3 (by decide) (by decide) (by decide)

/-! ### Theorems: claim C1 -/

/-- Helper: a logical coordinate below the grouped (ceiling-divided)
extent, expanded by the grouping factor, stays below the physical extent. -/
theorem groupedCoord_lt (d g t : Nat) (hg : 1 ≤ g)
    (ht : t < (d + g - 1) / g) : t * g < d := by
  have h1 : t + 1 ≤ (d + g - 1) / g := ht
  have h2 : (t + 1) * g ≤ ((d + g - 1) / g) * g := Nat.mul_le_mul_right g h1
  have h3 : ((d + g - 1) / g) * g ≤ d + g - 1 := Nat.div_mul_le_self _ _
  have h4 : (t + 1) * g = t * g + g := by ring
  have h5 : 1 ≤ (d + g - 1) / g := by omega
  have h6 : 1 * g ≤ ((d + g - 1) / g) * g := Nat.mul_le_mul_right g h5
  omega

/-- Helper: for in-range virtual coordinates the transformed, grouped
coordinates of both accessors stay inside the physical segment bounds, so
neither accessor drops the cell at the physical-bounds guard. -/
theorem mapCoord_inBounds (s : Segment) (x y : Nat) (hG : 1 ≤ s.grouping)
    (hx : x < s.virtualWidth) (hy : y < s.virtualHeight) :
    (s.mapCoord x y).1 < s.width ∧ (s.mapCoord x y).2 < s.height := by
  have hgl : 1 ≤ s.groupLength := hG
  have hx1 : (if s.reverse then s.virtualWidth - x - 1 else x) < s.virtualWidth := by
    split <;> omega
  have hy1 : (if s.reverse_y then s.virtualHeight - y - 1 else y) < s.virtualHeight := by
    split <;> omega
  unfold Segment.mapCoord
  by_cases htr : s.transpose
  · have hvW : s.virtualWidth = (s.height + s.groupLength - 1) / s.groupLength := by
      unfold Segment.virtualWidth
      rw [if_pos htr]
    have hvH : s.virtualHeight = (s.width + s.groupLength - 1) / s.groupLength := by
      unfold Segment.virtualHeight
      rw [if_pos htr]
    simp only [htr, if_true]
    exact ⟨groupedCoord_lt s.width s.groupLength _ hgl (hvH ▸ hy1),
           groupedCoord_lt s.height s.groupLength _ hgl (hvW ▸ hx1)⟩
  · have hvW : s.virtualWidth = (s.width + s.groupLength - 1) / s.groupLength := by
      unfold Segment.virtualWidth
      rw [if_neg htr]
    have hvH : s.virtualHeight = (s.height + s.groupLength - 1) / s.groupLength := by
      unfold Segment.virtualHeight
      rw [if_neg htr]
    simp only [htr, if_false]
    exact ⟨groupedCoord_lt s.width s.groupLength _ hgl (hvW ▸ hx1),
           groupedCoord_lt s.height s.groupLength _ hgl (hvH ▸ hy1)⟩

/-- Helper: a strip cell already holding the written color keeps it under
any further writes of the same color. -/
theorem applyWrites_preserve (st : Strip) (ws : List (Nat × Nat)) (col a b : Nat)
    (h : st a b = col) : applyWrites st ws col a b = col := by
  induction ws generalizing st with
  | nil => simpa [applyWrites] using h
  | cons w rest ih =>
      simp only [applyWrites, List.foldl_cons] at *
      apply ih
      unfold stripSet
      by_cases hab : a = w.1 ∧ b = w.2 <;> simp [hab, h]

/-- Helper: every cell in the write list ends holding the written color —
all writes of one setPixelColorXY call carry the same color, so later
writes cannot clobber earlier ones with anything else. -/
theorem applyWrites_mem (st : Strip) (ws : List (Nat × Nat)) (col a b : Nat)
    (h : (a, b) ∈ ws) : applyWrites st ws col a b = col := by
  induction ws generalizing st with
  | nil => simp at h
  | cons w rest ih =>
      rcases List.mem_cons.mp h with h1 | hr

      · simp only [applyWrites, List.foldl_cons]
        apply applyWrites_preserve
        rw [← h1]
        simp [stripSet]
      · simp only [applyWrites, List.foldl_cons]
        exact ih _ hr

/-- Helper: the canonical grouped cell is always among the write targets
(the j = 0, g = 0 iteration of the grouping loop passes the bounds guard). -/
theorem canonical_mem_groupWrites (s : Segment) (px py : Nat)
    (hG : 1 ≤ s.grouping) (hx : px < s.width) (hy : py < s.height) :
    (s.start + px, s.startY + py) ∈ groupWrites s px py := by
  unfold groupWrites
  simp only [List.mem_flatMap, List.mem_range]
  refine ⟨0, by omega, 0, by omega, ?_⟩
  have hb : ¬(px + 0 ≥ s.width ∨ py + 0 ≥ s.height) := by omega
  rw [if_neg hb]
  unfold mirrorTargets
  apply List.mem_append_left
  apply List.mem_append_left
  apply List.mem_append_left
  simp

/-- C1: on an active segment at full brightness with no transient render
buffer, reading back an in-range logical coordinate immediately after
writing it returns exactly the written color; the strip accessor is
modelled as a faithful function store, which is the hypothesis the claim
grants it. -/
theorem setGet_roundtrip (s : Segment) (rs : RenderState) (x y col : Nat)
    (hA : s.active = true) (hB : s.bri = 255) (hBuf : rs.buf = none)
    (hG : 1 ≤ s.grouping)
    (hx : x < s.virtualWidth) (hy : y < s.virtualHeight) :
    s.getPixelColorXY (s.setPixelColorXY rs (x : Int) (y : Int) col) x y = col := by
  obtain ⟨stripf, buf⟩ := rs
  simp only at hBuf
  subst hBuf
  have hpb := mapCoord_inBounds s x y hG hx hy
  have hguard : ¬((x : Int) ≥ (s.virtualWidth : Int) ∨ (y : Int) ≥ (s.virtualHeight : Int) ∨
      (x : Int) < 0 ∨ (y : Int) < 0) := by omega
  have hpguard : ¬((s.mapCoord x y).1 ≥ s.width ∨ (s.mapCoord x y).2 ≥ s.height) := by
    omega
  have hgguard : ¬(x ≥ s.virtualWidth ∨ y ≥ s.virtualHeight) := by omega
  simp only [Segment.setPixelColorXY, Segment.getPixelColorXY, hA, hB,
    Bool.not_true, Bool.false_eq_true, if_false, hguard, Int.toNat_natCast,
    Nat.lt_irrefl, hpguard, hgguard]
  exact applyWrites_mem stripf _ col _ _
    (canonical_mem_groupWrites s (s.mapCoord x y).1 (s.mapCoord x y).2 hG
      (by omega) (by omega))

/-- Witness for C1 on a concrete 2×2 segment. -/
theorem setGet_roundtrip_witness :
    Segment.getPixelColorXY (⟨0, 0, 2, 2, 1, false, false, false, false, false, true, 255⟩ : Segment)
      (Segment.setPixelColorXY (⟨0, 0, 2, 2, 1, false, false, false, false, false, true, 255⟩ : Segment)
        ⟨fun _ _ => 0, none⟩ (1 : Int) (0 : Int) 9) 1 0 = 9 := by
  have h := setGet_roundtrip
    (⟨0, 0, 2, 2, 1, false, false, false, false, false, true, 255⟩ : Segment)
    ⟨fun _ _ => 0, none⟩ 1 0 9 rfl rfl rfl (by decide) (by decide) (by decide)
  simpa using h

/-! ### Theorems: claim C8 -/

/-- C8: both setUpMatrix failure paths are all-or-nothing.  On a bounds
violation (maxWidth·maxHeight > MAX_LEDS, or maxWidth ≤ 1, or
maxHeight ≤ 1) and likewise on mapping-table allocation failure, matrix
mode is disabled, the dimensions fall back to one row of the strip's
length, the panel list is cleared with the panel count zeroed, and the
segments are reset.  customMappingSize is never set to a nonzero value in
either path: the bounds path leaves it untouched (early return before line
66) and the allocation path leaves it at the 0 written at line 66; neither
path installs a partially built table. -/
theorem setUpMatrix_failure_paths (maxLeds len totalLen : Nat) (allocOk : Bool)
    (gapRaw : Option (Nat → Int)) (st : MatrixState) (hM : st.isMatrix = true) :
    ((computeMaxWidth st.panel * computeMaxHeight st.panel > maxLeds ∨
      computeMaxWidth st.panel ≤ 1 ∨ computeMaxHeight st.panel ≤ 1) →
      setUpMatrix maxLeds len totalLen allocOk gapRaw st =
        { st with isMatrix := false, maxWidth := len, maxHeight := 1,
                  panels := 0, panel := [], segmentsReset := true }) ∧
    (¬(computeMaxWidth st.panel * computeMaxHeight st.panel > maxLeds ∨
       computeMaxWidth st.panel ≤ 1 ∨ computeMaxHeight st.panel ≤ 1) →
      st.customMappingTable = none → allocOk = false →
      setUpMatrix maxLeds len totalLen allocOk gapRaw st =
        { st with isMatrix := false, maxWidth := len, maxHeight := 1,
                  panels := 0, panel := [], customMappingSize := 0,
                  customMappingTable := none, segmentsReset := true }) := by
  constructor
  · intro hfail
    unfold setUpMatrix
    rw [hM]
    simp only [Bool.not_true, Bool.false_eq_true, if_false]
    rw [if_pos]
    simp only [decide_eq_true_eq, Bool.or_eq_true]
    tauto
  · intro hok hTbl hAlloc
    unfold setUpMatrix
    rw [hM]
    simp only [Bool.not_true, Bool.false_eq_true, if_false]
    rw [if_neg (by simp only [Bool.or_eq_true, decide_eq_true_eq]; tauto)]
    rw [if_neg (by rw [hTbl, hAlloc]; simp)]

/-- Witness for C8's bounds-failure path on a concrete state (empty panel
list, so maxWidth = 1 triggers the safety check; the stale
customMappingSize 9 is left untouched, not reset). -/
theorem setUpMatrix_failure_paths_witness :
    setUpMatrix 100 10 8 true none
      (⟨true, 5, 5, 3, [], 9, none, false⟩ : MatrixState) =
      ({ isMatrix := false, maxWidth := 10, maxHeight := 1, panels := 0,
         panel := [], customMappingSize := 9, customMappingTable := none,
         segmentsReset := true } : MatrixState) :=
  (setUpMatrix_failure_paths 100 10 8 true none
    ⟨true, 5, 5, 3, [], 9, none, false⟩ rfl).1 (by right; left; decide)

/-! ### Theorems: claim C2 -/

/-- Helper: List.set then getD, fully characterized. -/
theorem getD_set (l : List Nat) (i k v : Nat) :
    (l.set i v).getD k 0 = if k = i ∧ i < l.length then v else l.getD k 0 := by
  rw [List.getD_eq_getElem?_getD, List.getD_eq_getElem?_getD, List.getElem?_set]
  by_cases hik : i = k
  · subst hik
    by_cases hlen : i < l.length
    · simp [hlen]
    · simp [hlen, List.getElem?_eq_none (by omega : l.length ≤ i)]
  · have hnc : ¬(k = i ∧ i < l.length) := fun hc => hik hc.1.symm
    simp [hik, hnc]

/-- Helper: a foldl over max never drops below its seed. -/
theorem le_foldl_max (f : Panel → Nat) (ps : List Panel) (a : Nat) :
    a ≤ ps.foldl (fun acc p => max acc (f p)) a := by
  induction ps generalizing a with
  | nil => simp
  | cons q qs ih => exact le_trans (Nat.le_max_left _ (f q)) (ih _)

/-- Helper: a foldl over max dominates every list member's value. -/
theorem mem_le_foldl_max (f : Panel → Nat) (ps : List Panel) (p : Panel) (a : Nat)
    (hp : p ∈ ps) : f p ≤ ps.foldl (fun acc q => max acc (f q)) a := by
  induction ps generalizing a with
  | nil => cases hp
  | cons q qs ih =>
      rcases List.mem_cons.mp hp with h1 | h2
      · subst h1
        exact le_trans (Nat.le_max_right a (f p)) (le_foldl_max f qs _)
      · exact ih _ h2

/-- Helper: every panel's x-extent fits inside the computed bounding
width (lines 44-52 take the maximum over the panel list). -/
theorem panel_extent_le_maxWidth (ps : List Panel) (p : Panel) (hp : p ∈ ps) :
    p.xOffset + p.width ≤ computeMaxWidth ps :=
  mem_le_foldl_max (fun q => q.xOffset + q.width) ps p 1 hp

/-- Helper: every panel's y-extent fits inside the computed bounding
height. -/
theorem panel_extent_le_maxHeight (ps : List Panel) (p : Panel) (hp : p ∈ ps) :
    p.yOffset + p.height ≤ computeMaxHeight ps :=
  mem_le_foldl_max (fun q => q.yOffset + q.height) ps p 1 hp

/-- Helper: each visited cell's global index stays inside the matrix
area, for any panel within the bounding rectangle. -/
theorem panelCellIndex_lt (maxW maxH : Nat) (p : Panel) (j i : Nat)
    (hx : p.xOffset + p.width ≤ maxW) (hy : p.yOffset + p.height ≤ maxH)
    (hj : j < (if p.vertical then p.width else p.height))
    (hi : i < (if p.vertical then p.height else p.width)) :
    panelCellIndex maxW p j i < maxW * maxH := by
  unfold panelCellIndex
  by_cases hv : p.vertical
  · simp only [hv, if_true] at hj hi ⊢
    set yv := (if p.rightStart then p.width - j - 1 else j) with hyv
    set x0 := (if p.bottomStart then p.height - i - 1 else i) with hx0
    set xv := (if p.serpentine && j % 2 == 1 then p.height - x0 - 1 else x0) with hxv
    have hyb : yv < p.width := by rw [hyv]; split <;> omega
    have hx0b : x0 < p.height := by rw [hx0]; split <;> omega
    have hxb : xv < p.height := by rw [hxv]; split <;> omega
    have hrow : p.yOffset + xv < maxH := by omega
    have hcol : p.xOffset + yv < maxW := by omega
    calc (p.yOffset + xv) * maxW + p.xOffset + yv
        < (p.yOffset + xv) * maxW + maxW := by omega
      _ = (p.yOffset + xv + 1) * maxW := by ring
      _ ≤ maxH * maxW := Nat.mul_le_mul_right _ (by omega)
      _ = maxW * maxH := Nat.mul_comm _ _
  · have hv' : p.vertical = false := by simpa using hv
    simp only [hv', Bool.false_eq_true, if_false] at hj hi ⊢
    set yv := (if p.bottomStart then p.height - j - 1 else j) with hyv
    set x0 := (if p.rightStart then p.width - i - 1 else i) with hx0
    set xv := (if p.serpentine && j % 2 == 1 then p.width - x0 - 1 else x0) with hxv
    have hyb : yv < p.height := by rw [hyv]; split <;> omega
    have hx0b : x0 < p.width := by rw [hx0]; split <;> omega
    have hxb : xv < p.width := by rw [hxv]; split <;> omega
    have hrow : p.yOffset + yv < maxH := by omega
    have hcol : p.xOffset + xv < maxW := by omega
    calc (p.yOffset + yv) * maxW + p.xOffset + xv
        < (p.yOffset + yv) * maxW + maxW := by omega
      _ = (p.yOffset + yv + 1) * maxW := by ring
      _ ≤ maxH * maxW := Nat.mul_le_mul_right _ (by omega)
      _ = maxW * maxH := Nat.mul_comm _ _

/-- Helper: every index produced by the whole panel scan is inside the
matrix area. -/
theorem scanIndices_lt (ps : List Panel) (idx : Nat)
    (h : idx ∈ scanIndices (computeMaxWidth ps) ps) :
    idx < computeMaxWidth ps * computeMaxHeight ps := by
  unfold scanIndices at h
  simp only [List.mem_flatMap] at h
  obtain ⟨p, hp, hidx⟩ := h
  unfold panelScanIndices at hidx
  simp only [List.mem_flatMap, List.mem_map, List.mem_range] at hidx
  obtain ⟨j, hj, i, hi, rfl⟩ := hidx
  exact panelCellIndex_lt _ _ p j i (panel_extent_le_maxWidth ps p hp)
    (panel_extent_le_maxHeight ps p hp) hj hi

/-- Helper: the panel scan visits exactly width·height cells per panel. -/
theorem panelScanIndices_length (maxW : Nat) (p : Panel) :
    (panelScanIndices maxW p).length = p.width * p.height := by
  unfold panelScanIndices
  rw [List.length_flatMap]
  by_cases hv : p.vertical
  · simp [hv, Function.comp_def, List.map_const, Nat.mul_comm]
  · have hv' : p.vertical = false := by simpa using hv
    simp [hv', Function.comp_def, List.map_const, Nat.mul_comm]

/-- Helper: the whole scan performs one step per panel cell. -/
theorem scanIndices_length (maxW : Nat) (ps : List Panel) :
    (scanIndices maxW ps).length = panelAreaSum ps := by
  induction ps with
  | nil => rfl
  | cons p qs ih =>
      unfold scanIndices panelAreaSum at *
      simp only [List.flatMap_cons, List.map_cons, List.sum_cons,
        List.length_append, panelScanIndices_length, ih]

/-- Helper: the write gate passing implies the counter gate passes — a gap
value above 0 is in particular nonnegative, so every table write is
followed by a counter increment. -/
theorem writeGate_implies_countGate (g : Option (Nat → Int)) (idx : Nat)
    (h : writeGate g idx = true) : countGate g idx = true := by
  cases g with
  | none => rfl
  | some f =>
      simp only [writeGate, decide_eq_true_eq] at h
      simp only [countGate, decide_eq_true_eq]
      omega

/-- Helper: the initial table has length totalLen. -/
theorem initTable_length (MS TL : Nat) : (initTable MS TL).length = TL := by
  simp [initTable]

/-- Helper: reading the initial table: sentinel inside the matrix area,
identity in the trailing region. -/
theorem initTable_getD (MS TL k : Nat) (hk : k < TL) :
    (initTable MS TL).getD k 0 = if k < MS then sentinel else k := by
  unfold initTable
  rw [List.getD_eq_getElem?_getD, List.getElem?_map, List.getElem?_range hk]
  rfl

/-- Helper: invariant of the panel-scan fold.  Folding the scan step over
any list of matrix-area indices preserves the table length and the
trailing identity region, lets the counter grow by at most one per step,
keeps every matrix-area entry either sentinel or strictly below the
counter, and keeps the non-sentinel matrix-area entries pairwise distinct
(each write stores the current counter and then increments it, so written
values are strictly increasing over time and the last write at a cell
wins). -/
theorem scan_foldl_inv (g : Option (Nat → Int)) (L : List Nat) (MS TL : Nat)
    (tbl : List Nat) (pix : Nat)
    (hIdx : ∀ idx ∈ L, idx < MS)
    (hLen : tbl.length = TL)
    (hFuel : pix + L.length ≤ 65535)
    (hLow : ∀ k, k < MS → tbl.getD k 0 = sentinel ∨ tbl.getD k 0 < pix)
    (hDis : ∀ k1 k2, k1 < MS → k2 < MS → k1 ≠ k2 → tbl.getD k1 0 ≠ sentinel →
      tbl.getD k1 0 ≠ tbl.getD k2 0)
    (hTr : ∀ k, MS ≤ k → k < TL → tbl.getD k 0 = k) :
    (L.foldl (scanStep g) (tbl, pix)).1.length = TL ∧
    (L.foldl (scanStep g) (tbl, pix)).2 ≤ pix + L.length ∧
    (∀ k, k < MS → (L.foldl (scanStep g) (tbl, pix)).1.getD k 0 = sentinel ∨
      (L.foldl (scanStep g) (tbl, pix)).1.getD k 0 < (L.foldl (scanStep g) (tbl, pix)).2) ∧
    (∀ k1 k2, k1 < MS → k2 < MS → k1 ≠ k2 →
      (L.foldl (scanStep g) (tbl, pix)).1.getD k1 0 ≠ sentinel →
      (L.foldl (scanStep g) (tbl, pix)).1.getD k1 0 ≠
        (L.foldl (scanStep g) (tbl, pix)).1.getD k2 0) ∧
    (∀ k, MS ≤ k → k < TL → (L.foldl (scanStep g) (tbl, pix)).1.getD k 0 = k) := by
  induction L generalizing tbl pix with
  | nil =>
      refine ⟨hLen, by simp, hLow, hDis, hTr⟩
  | cons idx rest ih =>
      have hidxMS : idx < MS := hIdx idx (List.mem_cons_self idx rest)
      have hIdxRest : ∀ i ∈ rest, i < MS := fun i hi =>
        hIdx i (List.mem_cons_of_mem _ hi)
      have hlenc : (idx :: rest).length = rest.length + 1 := List.length_cons _ _
      have hpixlt : pix < 65535 := by omega
      rw [List.foldl_cons]
      by_cases hw : writeGate g idx = true
      · have hc := writeGate_implies_countGate g idx hw
        have hstep : scanStep g (tbl, pix) idx = (tbl.set idx pix, pix + 1) := by
          unfold scanStep
          rw [hw, hc]
          simp [Nat.mod_eq_of_lt (by omega : pix + 1 < 65536)]
        rw [hstep]
        have hLen' : (tbl.set idx pix).length = TL := by
          rw [List.length_set]; exact hLen
        have hFuel' : (pix + 1) + rest.length ≤ 65535 := by omega
        have hLow' : ∀ k, k < MS → (tbl.set idx pix).getD k 0 = sentinel ∨
            (tbl.set idx pix).getD k 0 < pix + 1 := by
          intro k hk
          rw [getD_set]
          split
          · right; omega
          · rcases hLow k hk with h | h
            · exact Or.inl h
            · exact Or.inr (by omega)
        have hDis' : ∀ k1 k2, k1 < MS → k2 < MS → k1 ≠ k2 →
            (tbl.set idx pix).getD k1 0 ≠ sentinel →
            (tbl.set idx pix).getD k1 0 ≠ (tbl.set idx pix).getD k2 0 := by
          intro k1 k2 hk1 hk2 hne hs1
          rw [getD_set] at hs1 ⊢
          rw [getD_set]
          by_cases h1 : k1 = idx ∧ idx < tbl.length
          · rw [if_pos h1] at hs1 ⊢
            by_cases h2 : k2 = idx ∧ idx < tbl.length
            · exact absurd (h1.1.trans h2.1.symm) hne
            · rw [if_neg h2]
              rcases hLow k2 hk2 with h | h
              · rw [h]
                unfold sentinel
                omega
              · omega
          · rw [if_neg h1] at hs1 ⊢
            by_cases h2 : k2 = idx ∧ idx < tbl.length
            · rw [if_pos h2]
              rcases hLow k1 hk1 with h | h
              · exact absurd h hs1
              · omega
            · rw [if_neg h2]
              exact hDis k1 k2 hk1 hk2 hne hs1
        have hTr' : ∀ k, MS ≤ k → k < TL → (tbl.set idx pix).getD k 0 = k := by
          intro k hk1 hk2
          rw [getD_set, if_neg (by omega : ¬(k = idx ∧ idx < tbl.length))]
          exact hTr k hk1 hk2
        obtain ⟨i1, i2, i3, i4, i5⟩ :=
          ih (tbl.set idx pix) (pix + 1) hIdxRest hLen' hFuel' hLow' hDis' hTr'
        exact ⟨i1, by omega, i3, i4, i5⟩
      · have hw' : writeGate g idx = false := by simpa using hw
        by_cases hc : countGate g idx = true
        · have hstep : scanStep g (tbl, pix) idx = (tbl, pix + 1) := by
            unfold scanStep
            rw [hw', hc]
            simp [Nat.mod_eq_of_lt (by omega : pix + 1 < 65536)]
          rw [hstep]
          have hLow' : ∀ k, k < MS → tbl.getD k 0 = sentinel ∨
              tbl.getD k 0 < pix + 1 := by
            intro k hk
            rcases hLow k hk with h | h
            · exact Or.inl h
            · exact Or.inr (by omega)
          obtain ⟨i1, i2, i3, i4, i5⟩ :=
            ih tbl (pix + 1) hIdxRest hLen (by omega) hLow' hDis hTr
          exact ⟨i1, by omega, i3, i4, i5⟩
        · have hc' : countGate g idx = false := by simpa using hc
          have hstep : scanStep g (tbl, pix) idx = (tbl, pix) := by
            unfold scanStep
            rw [hw', hc']
            simp
          rw [hstep]
          obtain ⟨i1, i2, i3, i4, i5⟩ :=
            ih tbl pix hIdxRest hLen (by omega) hLow hDis hTr
          exact ⟨i1, by omega, i3, i4, i5⟩

/-- C2 (amended): for every panel list for which setUpMatrix completes
without falling back AND whose panels' combined cell count does not exceed
the matrix area (in particular, non-overlapping panels inside the bounding
box), on a device whose matrix area fits into the total pixel count and
whose total pixel count fits 16-bit indexing, the resulting mapping table
has length equal to the total pixel count, every non-sentinel entry is
unique within the whole table, and every non-sentinel entry is strictly
below the total pixel count.  Overlapping panels (allowed by the original
claim) break uniqueness, see the counterexample. -/
theorem setUpMatrix_table_valid (maxLeds len totalLen : Nat) (allocOk : Bool)
    (gapRaw : Option (Nat → Int)) (st : MatrixState)
    (hM : st.isMatrix = true)
    (hRun : (setUpMatrix maxLeds len totalLen allocOk gapRaw st).isMatrix = true)
    (hSum : panelAreaSum st.panel ≤ computeMaxWidth st.panel * computeMaxHeight st.panel)
    (hMS : computeMaxWidth st.panel * computeMaxHeight st.panel ≤ totalLen)
    (hTL : totalLen ≤ 65535) :
    ∃ tbl, (setUpMatrix maxLeds len totalLen allocOk gapRaw st).customMappingTable = some tbl ∧
      tbl.length = totalLen ∧
      (∀ k1 k2, k1 < totalLen → k2 < totalLen → k1 ≠ k2 →
        tbl.getD k1 0 ≠ sentinel → tbl.getD k2 0 ≠ sentinel →
        tbl.getD k1 0 ≠ tbl.getD k2 0) ∧
      (∀ k, k < totalLen → tbl.getD k 0 ≠ sentinel → tbl.getD k 0 < totalLen) := by
  unfold setUpMatrix at hRun ⊢
  rw [hM] at hRun ⊢
  simp only [Bool.not_true, Bool.false_eq_true, if_false] at hRun ⊢
  by_cases hb : (decide (computeMaxWidth st.panel * computeMaxHeight st.panel > maxLeds) ||
      decide (computeMaxWidth st.panel ≤ 1) || decide (computeMaxHeight st.panel ≤ 1)) = true
  · rw [if_pos hb] at hRun
    simp at hRun
  · rw [if_neg hb] at hRun ⊢
    by_cases ha : (st.customMappingTable.isSome || allocOk) = true
    · rw [if_pos ha] at hRun ⊢
      have hLsum : (scanIndices (computeMaxWidth st.panel) st.panel).length =
          panelAreaSum st.panel := scanIndices_length _ _
      have hInitIdx : ∀ idx ∈ scanIndices (computeMaxWidth st.panel) st.panel,
          idx < computeMaxWidth st.panel * computeMaxHeight st.panel :=
        fun idx hidx => scanIndices_lt st.panel idx hidx
      have hInitFuel : 0 + (scanIndices (computeMaxWidth st.panel) st.panel).length ≤ 65535 := by
        omega
      have hInitLow : ∀ k, k < computeMaxWidth st.panel * computeMaxHeight st.panel →
          (initTable (computeMaxWidth st.panel * computeMaxHeight st.panel) totalLen).getD k 0 = sentinel ∨
          (initTable (computeMaxWidth st.panel * computeMaxHeight st.panel) totalLen).getD k 0 < 0 := by
        intro k hk
        left
        rw [initTable_getD _ _ _ (by omega), if_pos hk]
      have hInitDis : ∀ k1 k2, k1 < computeMaxWidth st.panel * computeMaxHeight st.panel →
          k2 < computeMaxWidth st.panel * computeMaxHeight st.panel → k1 ≠ k2 →
          (initTable (computeMaxWidth st.panel * computeMaxHeight st.panel) totalLen).getD k1 0 ≠ sentinel →
          (initTable (computeMaxWidth st.panel * computeMaxHeight st.panel) totalLen).getD k1 0 ≠
          (initTable (computeMaxWidth st.panel * computeMaxHeight st.panel) totalLen).getD k2 0 := by
        intro k1 k2 hk1 hk2 hne hs1
        exfalso
        apply hs1
        rw [initTable_getD _ _ _ (by omega), if_pos hk1]
      have hInitTr : ∀ k, computeMaxWidth st.panel * computeMaxHeight st.panel ≤ k →
          k < totalLen →
          (initTable (computeMaxWidth st.panel * computeMaxHeight st.panel) totalLen).getD k 0 = k := by
        intro k hk1 hk2
        rw [initTable_getD _ _ _ hk2, if_neg (by omega)]
      obtain ⟨i1, i2, i3, i4, i5⟩ := scan_foldl_inv
        (constrainedGap gapRaw)
        (scanIndices (computeMaxWidth st.panel) st.panel)
        (computeMaxWidth st.panel * computeMaxHeight st.panel) totalLen
        (initTable (computeMaxWidth st.panel * computeMaxHeight st.panel) totalLen) 0
        hInitIdx (initTable_length _ _) hInitFuel hInitLow hInitDis hInitTr
      have hpixB : (List.foldl
          (scanStep (constrainedGap gapRaw))
          (initTable (computeMaxWidth st.panel * computeMaxHeight st.panel) totalLen, 0)
          (scanIndices (computeMaxWidth st.panel) st.panel)).2 ≤
          panelAreaSum st.panel := by omega
      refine ⟨_, rfl, ?_, ?_, ?_⟩
      · unfold buildTable
        exact i1
      · unfold buildTable
        intro k1 k2 hk1 hk2 hne hs1 hs2
        by_cases hm1 : k1 < computeMaxWidth st.panel * computeMaxHeight st.panel
        · by_cases hm2 : k2 < computeMaxWidth st.panel * computeMaxHeight st.panel
          · exact i4 k1 k2 hm1 hm2 hne hs1
          · have hv1 := (i3 k1 hm1).resolve_left hs1
            have hv2 := i5 k2 (by omega) hk2
            rw [hv2]
            omega
        · by_cases hm2 : k2 < computeMaxWidth st.panel * computeMaxHeight st.panel
          · have hv2 := (i3 k2 hm2).resolve_left hs2
            have hv1 := i5 k1 (by omega) hk1
            rw [hv1]
            omega
          · rw [i5 k1 (by omega) hk1, i5 k2 (by omega) hk2]
            exact hne
      · unfold buildTable
        intro k hk hs
        by_cases hm : k < computeMaxWidth st.panel * computeMaxHeight st.panel
        · have hv := (i3 k hm).resolve_left hs
          omega
        · rw [i5 k (by omega) hk]
          exact hk
    · rw [if_neg ha] at hRun
      simp at hRun

/-- Witness for C2's amended theorem: a single 2×2 panel at the origin on
an 8-pixel device. -/
theorem setUpMatrix_table_valid_witness :
    ∃ tbl, (setUpMatrix 100 10 8 true none
      (⟨true, 1, 1, 1, [⟨2, 2, 0, 0, false, false, false, false⟩], 0, none,
        false⟩ : MatrixState)).customMappingTable = some tbl ∧
      tbl.length = 8 ∧
      (∀ k1 k2, k1 < 8 → k2 < 8 → k1 ≠ k2 →
        tbl.getD k1 0 ≠ sentinel → tbl.getD k2 0 ≠ sentinel →
        tbl.getD k1 0 ≠ tbl.getD k2 0) ∧
      (∀ k, k < 8 → tbl.getD k 0 ≠ sentinel → tbl.getD k 0 < 8) :=
  setUpMatrix_table_valid 100 10 8 true none
    ⟨true, 1, 1, 1, [⟨2, 2, 0, 0, false, false, false, false⟩], 0, none, false⟩
    rfl rfl (by decide) (by decide) (by decide)

/-- C2 counterexample: two identical overlapping 2×2 panels pass the
safety check (bounding box 2×2 on an 8-pixel device), so setUpMatrix
completes without falling back, but the second panel's scan re-counts the
same cells: the matrix area ends as [4,5,6,7] and collides with the
trailing identity entries [4,5,6,7] — entries 0 and 4 both hold the
non-sentinel value 4, refuting uniqueness. -/
theorem setUpMatrix_overlap_counterexample :
    (setUpMatrix 100 10 8 true none
      (⟨true, 1, 1, 2, [⟨2, 2, 0, 0, false, false, false, false⟩,
        ⟨2, 2, 0, 0, false, false, false, false⟩], 0, none,
        false⟩ : MatrixState)).isMatrix = true ∧
    (setUpMatrix 100 10 8 true none
      (⟨true, 1, 1, 2, [⟨2, 2, 0, 0, false, false, false, false⟩,
        ⟨2, 2, 0, 0, false, false, false, false⟩], 0, none,
        false⟩ : MatrixState)).customMappingTable =
      some [4, 5, 6, 7, 4, 5, 6, 7] ∧
    ([4, 5, 6, 7, 4, 5, 6, 7] : List Nat).getD 0 0 =
      ([4, 5, 6, 7, 4, 5, 6, 7] : List Nat).getD 4 0 ∧
    ([4, 5, 6, 7, 4, 5, 6, 7] : List Nat).getD 0 0 ≠ sentinel := by
  refine ⟨rfl, rfl, rfl, by decide⟩

end Wled2D
